import Mathlib

/-!
Verification of the CODI data-augmentation module (src/CODI.py).

Shallow embedding conventions:
* 2-D numpy arrays are lists of rows (`Mat`), 1-D arrays are `List` (`Vec`);
  floating-point arithmetic is modeled exactly, over an arbitrary field
  (instantiated at `ℚ` for computation and at `ℝ` where `1/np.sqrt` matters).
* numpy's seeded `RandomState` is modeled by the infinite sequence
  `stream : ℕ → α` of standard-normal draws it would produce, together with a
  position counter threaded through the computation.  `rand.normal(0, s, shape)`
  fills its result in C order with `s * stream pos`, `s * stream (pos+1)`, …,
  which is exactly how numpy's legacy generator produces scaled normals
  (`loc + scale * gauss`), and advances the position by the number of entries.
* caller-supplied variability functions are modeled by the sequence of values
  their successive invocations return (`ℕ → Vec α`); within `generate_samples`
  the function listed as source entry `e` is invoked `n_per_seed` times per
  seed, in seed order, so its invocation for seed `idx`, row `i` is invocation
  number `idx * n_per_seed + i`.
* Python `ValueError` raising is modeled with `Except String`.
-/

namespace CODIModel

/-- One row of a 2-D numpy array / a 1-D numpy array. -/
abbrev Vec (α : Type) := List α

/-- A 2-D numpy array, as its list of rows. -/
abbrev Mat (α : Type) := List (List α)

/-- Element-wise vector addition (numpy `+` on equal-length 1-D arrays). -/
def vecAdd {α : Type} [Add α] (u v : Vec α) : Vec α := List.zipWith (· + ·) u v

/-- Element-wise matrix addition (numpy `+=` on equal-shaped 2-D arrays). -/
def matAdd {α : Type} [Add α] (A B : Mat α) : Mat α := List.zipWith vecAdd A B

/-- Dot product of two vectors. -/
def dotL {α : Type} [Mul α] [Add α] [Zero α] (u v : List α) : α :=
  (List.zipWith (· * ·) u v).sum

/-- Matrix product (numpy `@`): entry `(i, j)` is the dot product of row `i`
of `A` with column `j` of `B`; the column count is read off `B`'s first row. -/
def matMul {α : Type} [Mul α] [Add α] [Zero α] (A B : Mat α) : Mat α :=
  A.map (fun r => (List.range ((B.headD []).length)).map
    (fun j => dotL r (B.map (fun row => row.getD j 0))))

/-- numpy transpose of a rectangular matrix (column count read off row 0). -/
def transposeM {α : Type} [Zero α] (A : Mat α) : Mat α :=
  (List.range ((A.headD []).length)).map (fun j => A.map (fun row => row.getD j 0))

/-- `self.rand.normal(0, std, (rows, cols))` (src/CODI.py line 79): a
`rows × cols` matrix of normal draws with mean 0 and standard deviation `std`,
filled in C order from the generator's stream starting at `pos`; each draw is
`std` times a standard-normal draw. -/
def randNormal {α : Type} [Mul α] (stream : ℕ → α) (pos : ℕ) (std : α)
    (rows cols : ℕ) : Mat α :=
  (List.range rows).map (fun i =>
    (List.range cols).map (fun j => std * stream (pos + (i * cols + j))))

/-- Column-wise sum of the rows of a matrix. -/
def sumRows {α : Type} [Add α] : Mat α → Vec α
  | [] => []
  | r :: rs => rs.foldl vecAdd r

/-- `X.mean(axis=0)` (src/CODI.py lines 98, 102): column-wise mean. -/
def meanRows {α : Type} [Field α] (A : Mat α) : Vec α :=
  (sumRows A).map (fun x => x / (A.length : α))

/-- `X[y == l]` (src/CODI.py line 102): the rows of `X` whose label is `l`. -/
def selectRows {α : Type} [DecidableEq α] (X : Mat α) (ys : List α) (l : α) : Mat α :=
  ((X.zip ys).filter (fun p => p.2 = l)).map (fun p => p.1)

/-- `set(y)` (src/CODI.py line 101): the distinct labels.  Python's set
iteration order is unspecified (spec §4.2/§9 flags it as such); the model
fixes first-occurrence order, on which no claim depends. -/
def dedupF {α : Type} [DecidableEq α] : List α → List α
  | [] => []
  | a :: t => a :: (dedupF t).filter (fun b => b ≠ a)

/-- `__get_seed_samples` (src/CODI.py lines 88-104): the seed vectors and
their labels (`None` when no labels apply). -/
def getSeedSamples {α : Type} [Field α] [DecidableEq α] (X : Mat α)
    (y : Option (List α)) (strat : String) : Mat α × List (Option α) :=
  if strat = "all" then
    (X, match y with
        | none => List.replicate X.length none
        | some ys => ys.map some)
  else
    match y with
    | none => ([meanRows X], [none])
    | some ys =>
        ((dedupF ys).map (fun l => meanRows (selectRows X ys l)),
         (dedupF ys).map some)

/-- A variability source: a zero-argument callable (modeled by its sequence of
return values) or a calibration dataset. -/
inductive VSource (α : Type) where
  | gen (g : ℕ → Vec α)
  | calib (C : Mat α)

/-- `np.array([source() for i in range(n_per_seed)])` (src/CODI.py line 75)
for the seed with index `idx`: the callable's invocations for that seed are
numbered `idx * n + 0, …, idx * n + (n-1)`. -/
def genNoise {α : Type} (g : ℕ → Vec α) (n idx : ℕ) : Mat α :=
  (List.range n).map (fun i => g (idx * n + i))

/-- `self.rand.normal(0, 1/np.sqrt(m), (m, n)).T @ source`
(src/CODI.py lines 77-79): the calibration-set perturbation.  `invSqrt m`
models `1/np.sqrt(m)`. -/
def calibPert {α : Type} [Field α] (invSqrt stream : ℕ → α) (pos : ℕ)
    (C : Mat α) (n : ℕ) : Mat α :=
  matMul (transposeM (randNormal stream pos (invSqrt C.length) C.length n)) C

/-- One iteration of the `for source in self.variability_sources` loop
(src/CODI.py lines 73-79) on the state (current block, RNG position). -/
def applySource {α : Type} [Field α] (invSqrt stream : ℕ → α) (n idx : ℕ)
    (acc : Mat α × ℕ) (src : VSource α) : Mat α × ℕ :=
  match src with
  | .gen g => (matAdd acc.1 (genNoise g n idx), acc.2)
  | .calib C => (matAdd acc.1 (calibPert invSqrt stream acc.2 C n),
                 acc.2 + C.length * n)

/-- The body of the per-seed loop (src/CODI.py lines 72-79): tile the seed
`n` times (`np.tile(x_seed, (n_per_seed, 1))`), then add every variability
source's perturbation in order. -/
def genBlock {α : Type} [Field α] (invSqrt stream : ℕ → α)
    (sources : List (VSource α)) (n idx : ℕ) (s : Vec α) (pos : ℕ) : Mat α × ℕ :=
  sources.foldl (applySource invSqrt stream n idx) (List.replicate n s, pos)

/-- The `for x_seed, y_seed in zip(X_seeds, y_seeds)` loop (src/CODI.py
lines 71-81): the list of generated blocks, in seed order, with the RNG
position threaded through. -/
def genBlocks {α : Type} [Field α] (invSqrt stream : ℕ → α)
    (sources : List (VSource α)) (n : ℕ) :
    List (Vec α × Option α) → ℕ → ℕ → List (Mat α) × ℕ
  | [], _, pos => ([], pos)
  | p :: rest, idx, pos =>
      let b := genBlock invSqrt stream sources n idx p.1 pos
      let r := genBlocks invSqrt stream sources n rest (idx + 1) b.2
      (b.1 :: r.1, r.2)

/-- `np.tile(y_seed, n_per_seed)` (src/CODI.py line 81) for a label; the
`none` case is only reached when `y` is absent, in which branch the code
discards the tiles (`y_gen = None if y is None …`, line 84). -/
def tileLabel {α : Type} (n : ℕ) : Option α → List α
  | none => []
  | some v => List.replicate n v

/-- `generate_samples` after its input validation (src/CODI.py lines 62-86):
derive the seeds, generate one perturbed block per seed, and vstack/hstack
the results.  Returns ((X_gen, y_gen), final RNG position). -/
def generateSamples {α : Type} [Field α] [DecidableEq α] (invSqrt stream : ℕ → α)
    (sources : List (VSource α)) (X : Mat α) (strat : String) (n : ℕ)
    (y : Option (List α)) (pos : ℕ) : (Mat α × Option (List α)) × ℕ :=
  let sp := getSeedSamples X y strat
  let seeds := sp.1.zip sp.2
  let r := genBlocks invSqrt stream sources n seeds 0 pos
  ((r.1.flatten,
    match y with
    | none => none
    | some _ => some ((seeds.map (fun p => tileLabel n p.2)).flatten)), r.2)

/-- The number of seed samples a call derives. -/
def numSeeds {α : Type} [Field α] [DecidableEq α] (X : Mat α)
    (y : Option (List α)) (strat : String) : ℕ :=
  (getSeedSamples X y strat).1.length

/-- `std = 1/np.sqrt(m)` (src/CODI.py line 78). -/
noncomputable def npInvSqrt (m : ℕ) : ℝ := 1 / Real.sqrt m

/-- Every row of `A` has length `f` (the matrix has `f` columns). -/
def IsRect {α : Type} (A : Mat α) (f : ℕ) : Prop := ∀ r ∈ A, r.length = f

/-- A variability source compatible with feature count `f`: a callable whose
every invocation returns an `f`-vector, or a nonempty calibration set with
`f` columns.  (A mismatch surfaces in numpy as a broadcast error, spec §7.) -/
def SourceWF {α : Type} (f : ℕ) : VSource α → Prop
  | .gen g => ∀ j, (g j).length = f
  | .calib C => C ≠ [] ∧ IsRect C f

/-- The CODI instance (src/CODI.py lines 7-27): the validated sources, the
stored `random_state` argument, and the position of its `np.random.RandomState`
in its draw stream (`0`: a freshly seeded generator has consumed nothing). -/
structure CODI (α : Type) where
  variability_sources : List (VSource α)
  random_state : Option ℤ
  pos : ℕ

/-- `CODI.__init__` on well-typed sources (src/CODI.py lines 25-27); the
duck-typing checks of lines 18-23 are modeled separately by `initCheck`. -/
def mkCODI {α : Type} (sources : List (VSource α)) (random_state : Option ℤ) :
    CODI α :=
  ⟨sources, random_state, 0⟩

/-- An instance's `generate_samples` after validation.  `seedStream s` is the
standard-normal draw stream of `np.random.RandomState(s)`; numpy guarantees it
is a function of the seed alone, which the model states by making it one. -/
def CODI.generate {α : Type} [Field α] [DecidableEq α] (invSqrt : ℕ → α)
    (seedStream : Option ℤ → ℕ → α) (c : CODI α) (X : Mat α) (strat : String)
    (n : ℕ) (y : Option (List α)) : (Mat α × Option (List α)) × ℕ :=
  generateSamples invSqrt (seedStream c.random_state) c.variability_sources
    X strat n y c.pos

/-! ### Python-level argument model

The `isinstance`/`callable` sanity checks of `__init__` and `generate_samples`
operate on raw Python objects, modeled below only as finely as those checks
discriminate: a numpy array with its dimensionality and leading shape entry, a
callable with its arity, an `int` or not, a list/array/tuple/other container. -/

/-- A numpy array argument: 1-D, 2-D, or higher-dimensional (for which only
the shape matters to any check). -/
inductive NpA (α : Type) where
  | one (v : List α)
  | two (A : Mat α)
  | higher (shape : List ℕ)

/-- `x.ndim`. -/
def NpA.ndim {α : Type} : NpA α → ℕ
  | .one _ => 1
  | .two _ => 2
  | .higher s => s.length

/-- `x.shape[0]`. -/
def NpA.shape0 {α : Type} : NpA α → ℕ
  | .one v => v.length
  | .two A => A.length
  | .higher s => s.headD 0

/-- A Python object passed as `X` or `y`: a numpy array, or anything else. -/
inductive PyV (α : Type) where
  | arr (a : NpA α)
  | notArr

/-- `isinstance(x, np.ndarray)`. -/
def isNd {α : Type} : PyV α → Bool
  | .arr _ => true
  | .notArr => false

/-- The Python object passed as `n_per_seed`: an `int`, or anything else. -/
inductive PyInt where
  | int (n : ℤ)
  | notInt

/-- `isinstance(n_per_seed, int) and n_per_seed >= 1` (the negation of the
check on src/CODI.py line 57). -/
def npsOk : PyInt → Bool
  | .int n => decide (1 ≤ n)
  | .notInt => false

/-- `y is not None and not isinstance(y, np.ndarray)` (src/CODI.py line 53). -/
def yNotArr {α : Type} : Option (PyV α) → Bool
  | some .notArr => true
  | _ => false

/-- `y is not None and X.shape[0] != y.shape[0]` (src/CODI.py line 59), which
is only reached when `X` and `y` are both arrays. -/
def lenMismatch {α : Type} : PyV α → Option (PyV α) → Bool
  | .arr a, some (.arr b) => decide (a.shape0 ≠ b.shape0)
  | _, _ => false

/-- The sanity checks of `generate_samples` (src/CODI.py lines 50-60), in
source order, with the source's error messages. -/
def checkArgs {α : Type} (X : PyV α) (strat : String) (np : PyInt)
    (y : Option (PyV α)) : Except String Unit :=
  if isNd X = false then .error "X must be a NumPy array"
  else if yNotArr y then .error "y must be a NumPy array or None"
  else if ¬ (strat = "all" ∨ strat = "mean") then
    .error "seed_strategy must be in \x7b\"all\", \"mean\"\x7d"
  else if npsOk np = false then .error "n_per_seed must be an int (> 0)"
  else if lenMismatch X y then
    .error "X and y must have the same number of observations"
  else .ok ()

/-- The labels a validated 1-D `y` carries. -/
def yData {α : Type} : Option (PyV α) → Option (List α)
  | some (.arr (.one v)) => some v
  | _ => none

/-- `generate_samples` from the raw Python arguments: the sanity checks run
first, and only a passed check reaches any generation work, so an error leaves
the generator position (the `self.rand` state) untouched and produces no
output.  The generation semantics is given for the documented argument shapes
(2-D `X`, 1-D or absent `y`); for other arrays that slip past the checks the
code runs duck-typed numpy code whose value no claim depends on, left
unspecified here as an empty result. -/
def generateChecked {α : Type} [Field α] [DecidableEq α] (invSqrt stream : ℕ → α)
    (sources : List (VSource α)) (X : PyV α) (strat : String) (np : PyInt)
    (y : Option (PyV α)) (pos : ℕ) :
    Except String ((Mat α × Option (List α)) × ℕ) :=
  match checkArgs X strat np y with
  | .error e => .error e
  | .ok _ =>
      match X, np with
      | .arr (.two A), .int k =>
          .ok (generateSamples invSqrt stream sources A strat k.toNat (yData y) pos)
      | _, _ => .ok (([], none), pos)

/-- An element of the `variability_sources` argument: a callable (with its
positional arity), a numpy array, or anything else. -/
inductive PyO (α : Type) where
  | func (arity : ℕ)
  | arr (a : NpA α)
  | plain

/-- `callable(source)`. -/
def isCallable {α : Type} : PyO α → Bool
  | .func _ => true
  | _ => false

/-- `isinstance(source, np.ndarray)`. -/
def isArrO {α : Type} : PyO α → Bool
  | .arr _ => true
  | _ => false

/-- `callable(source) or isinstance(source, np.ndarray)` (the negation of the
element check on src/CODI.py line 22). -/
def srcOk {α : Type} (x : PyO α) : Bool := isCallable x || isArrO x

/-- The `variability_sources` argument: a Python list, a numpy array (iterating
one yields its elements — rows, for a 2-D array), a tuple (an ordered flat
sequence that is neither), or any other object. -/
inductive PySrcs (α : Type) where
  | pyList (xs : List (PyO α))
  | pyNd (xs : List (PyO α))
  | pyTuple (xs : List (PyO α))
  | pyOther

/-- The elements iterated over by `for source in variability_sources`. -/
def PySrcs.elems {α : Type} : PySrcs α → List (PyO α)
  | .pyList xs => xs
  | .pyNd xs => xs
  | .pyTuple xs => xs
  | .pyOther => []

/-- `isinstance(variability_sources, list) or isinstance(variability_sources,
np.ndarray)` (the negation of the check on src/CODI.py line 19). -/
def seqOk {α : Type} : PySrcs α → Bool
  | .pyList _ => true
  | .pyNd _ => true
  | _ => false

/-- The element loop of `__init__` (src/CODI.py lines 21-23): first offending
element raises. -/
def elemsCheck {α : Type} : List (PyO α) → Except String Unit
  | [] => .ok ()
  | x :: rest =>
      if srcOk x then elemsCheck rest
      else .error "Each variability source must be a function or a NumPy array"

/-- The sanity checks of `CODI.__init__` (src/CODI.py lines 18-23). -/
def initCheck {α : Type} (s : PySrcs α) : Except String Unit :=
  match s with
  | .pyList xs => elemsCheck xs
  | .pyNd xs => elemsCheck xs
  | _ => .error "Variability sources must be provided as a 1-d list or NumPy array"

/-! ### Heap model

`generate_samples` mutates arrays only through `X_gen_ += …` (src/CODI.py
lines 75, 79), and `X_gen_` is always a fresh allocation (`np.tile`, line 72),
as are the `astype` copies of `X` and `y` (lines 63, 65).  To state that the
caller's arrays are never written, the same pipeline is repeated against an
explicit store of array cells: every numpy allocation appends a cell, and
`+=` writes its cell in place. -/

/-- A heap cell: a 2-D or a 1-D array object. -/
inductive Cell (α : Type) where
  | mat (A : Mat α)
  | vec (v : List α)

/-- The heap: allocated array objects, addressed by allocation order. -/
abbrev Store (α : Type) := List (Cell α)

/-- Dereference a 2-D array. -/
def readMat {α : Type} (σ : Store α) (i : ℕ) : Mat α :=
  match σ.getD i (.mat []) with
  | .mat A => A
  | .vec _ => []

/-- Dereference a 1-D array. -/
def readVec {α : Type} (σ : Store α) (i : ℕ) : List α :=
  match σ.getD i (.vec []) with
  | .vec v => v
  | .mat _ => []

/-- Allocate a fresh array object; returns the new store and its address. -/
def allocC {α : Type} (σ : Store α) (c : Cell α) : Store α × ℕ :=
  (σ ++ [c], σ.length)

/-- The source loop body (src/CODI.py lines 73-79) against the store:
`X_gen_ += …` writes the block cell `b` in place. -/
def applySourceS {α : Type} [Field α] (invSqrt stream : ℕ → α) (n idx b : ℕ)
    (acc : Store α × ℕ) (src : VSource α) : Store α × ℕ :=
  match src with
  | .gen g =>
      (acc.1.set b (.mat (matAdd (readMat acc.1 b) (genNoise g n idx))), acc.2)
  | .calib C =>
      (acc.1.set b (.mat (matAdd (readMat acc.1 b) (calibPert invSqrt stream acc.2 C n))),
       acc.2 + C.length * n)

/-- The per-seed loop (src/CODI.py lines 71-81) against the store: each seed
allocates a fresh tile (`np.tile(x_seed, (n_per_seed, 1))`), perturbs it in
place, and records its address.  Returns (store, RNG position, block refs). -/
def genLoopS {α : Type} [Field α] (invSqrt stream : ℕ → α)
    (sources : List (VSource α)) (n : ℕ) :
    List (Vec α × Option α) → ℕ → Store α → ℕ → Store α × ℕ × List ℕ
  | [], _, σ, pos => (σ, pos, [])
  | p :: rest, idx, σ, pos =>
      let a := allocC σ (.mat (List.replicate n p.1))
      let s2 := sources.foldl (applySourceS invSqrt stream n idx a.2) (a.1, pos)
      let r := genLoopS invSqrt stream sources n rest (idx + 1) s2.1 s2.2
      (r.1, r.2.1, a.2 :: r.2.2)

/-- `generate_samples` (src/CODI.py lines 62-86) against the store.  `xi` and
`yi` are the addresses of the caller's `X` and `y`; `astype(float)` copies
both into fresh cells (lines 63-65), the per-seed loop runs on fresh tiles,
and `np.vstack`/`np.hstack` allocate the outputs (lines 83-84).  Returns
(final store, X_gen address, final RNG position). -/
def generateSamplesS {α : Type} [Field α] [DecidableEq α] (invSqrt stream : ℕ → α)
    (sources : List (VSource α)) (σ : Store α) (xi : ℕ) (yi : Option ℕ)
    (strat : String) (n : ℕ) (pos : ℕ) : Store α × ℕ × ℕ :=
  let aX := allocC σ (.mat (readMat σ xi))
  let st1 : Store α × Option (List α) :=
    match yi with
    | none => (aX.1, none)
    | some j =>
        let ay := allocC aX.1 (.vec (readVec aX.1 j))
        (ay.1, some (readVec ay.1 ay.2))
  let sp := getSeedSamples (readMat st1.1 aX.2) st1.2 strat
  let seeds := sp.1.zip sp.2
  let r := genLoopS invSqrt stream sources n seeds 0 st1.1 pos
  let aG := allocC r.1 (.mat ((r.2.2.map (fun b => readMat r.1 b)).flatten))
  let σF :=
    match st1.2 with
    | none => aG.1
    | some _ =>
        (allocC aG.1 (.vec ((seeds.map (fun p => tileLabel n p.2)).flatten))).1
  (σF, aG.2, r.2.1)

/-- `σ` extends `σ0` without disturbing it: it is at least as long, and every
cell already allocated in `σ0` reads back unchanged. -/
def Pres {α : Type} (σ0 σ : Store α) : Prop :=
  σ0.length ≤ σ.length ∧ ∀ i < σ0.length, ∀ c, σ.getD i c = σ0.getD i c

/-! ### List toolbox -/

theorem getD_map_getD {β γ : Type} (f : β → γ) (l : List β) {i : ℕ}
    (h : i < l.length) (d : γ) (d' : β) :
    (l.map f).getD i d = f (l.getD i d') := by
  rw [List.getD_eq_getElem?_getD, List.getElem?_map,
    List.getElem?_eq_getElem h, List.getD_eq_getElem?_getD,
    List.getElem?_eq_getElem h]
  rfl

theorem getD_range_map {β : Type} (f : ℕ → β) {n i : ℕ} (h : i < n) (d : β) :
    ((List.range n).map f).getD i d = f i := by
  rw [getD_map_getD f _ (by simpa using h) d 0, List.getD_eq_getElem?_getD,
    List.getElem?_range h]
  rfl

theorem zipWith_getD {β γ δ : Type} (f : β → γ → δ) :
    ∀ (as : List β) (bs : List γ) (i : ℕ), i < as.length → i < bs.length →
    ∀ (d : δ) (da : β) (db : γ),
    (List.zipWith f as bs).getD i d = f (as.getD i da) (bs.getD i db)
  | [], _, i, h1, _, _, _, _ => by simp at h1
  | _ :: _, [], i, _, h2, _, _, _ => by simp at h2
  | a :: as, b :: bs, 0, _, _, d, da, db => rfl
  | a :: as, b :: bs, i + 1, h1, h2, d, da, db => by
      simpa using zipWith_getD f as bs i (by simpa using h1) (by simpa using h2) d da db

theorem flatten_const_length {β : Type} {n : ℕ} :
    ∀ (L : List (List β)), (∀ b ∈ L, b.length = n) →
    L.flatten.length = L.length * n
  | [], _ => by simp
  | b :: L, h => by
      have hb : b.length = n := h b (by simp)
      have hL := flatten_const_length L (fun b hbm => h b (by simp [hbm]))
      simp [hb, hL, Nat.succ_mul, Nat.add_comm]

theorem getD_mem_of_lt {β : Type} {l : List β} {i : ℕ} (h : i < l.length)
    (d : β) : l.getD i d ∈ l := by
  rw [List.getD_eq_getElem?_getD, List.getElem?_eq_getElem h]
  exact List.getElem_mem h

/-! ### Shape lemmas for the generation pipeline -/

theorem rect_getD_length {α : Type} {A : Mat α} {f : ℕ} (hA : IsRect A f)
    {i : ℕ} (h : i < A.length) : (A.getD i []).length = f :=
  hA _ (getD_mem_of_lt h [])

theorem headD_length_of_rect {α : Type} {C : Mat α} {f : ℕ} (h0 : C ≠ [])
    (hC : IsRect C f) : (C.headD []).length = f := by
  cases C with
  | nil => exact absurd rfl h0
  | cons c cs => exact hC c (by simp)

theorem vecAdd_length {α : Type} [Add α] (u v : Vec α) :
    (vecAdd u v).length = min u.length v.length :=
  List.length_zipWith _ u v

theorem matAdd_length {α : Type} [Add α] (A B : Mat α) :
    (matAdd A B).length = min A.length B.length :=
  List.length_zipWith _ A B

theorem matAdd_rect {α : Type} [Add α] {f : ℕ} :
    ∀ {A B : Mat α}, IsRect A f → IsRect B f → IsRect (matAdd A B) f := by
  intro A
  induction A with
  | nil => intro B _ _; simp [matAdd, IsRect]
  | cons a as ih =>
      intro B hA hB
      cases B with
      | nil => simp [matAdd, IsRect]
      | cons b bs =>
          intro r hr
          simp only [matAdd, List.zipWith_cons_cons, List.mem_cons] at hr
          rcases hr with h | h
          · subst h
            rw [vecAdd_length, hA a (by simp), hB b (by simp)]
            exact Nat.min_self f
          · exact ih (fun x hx => hA x (by simp [hx]))
              (fun x hx => hB x (by simp [hx])) r h

theorem genNoise_length {α : Type} (g : ℕ → Vec α) (n idx : ℕ) :
    (genNoise g n idx).length = n := by simp [genNoise]

theorem genNoise_rect {α : Type} {g : ℕ → Vec α} {f : ℕ}
    (hg : ∀ j, (g j).length = f) (n idx : ℕ) : IsRect (genNoise g n idx) f := by
  intro r hr
  simp only [genNoise, List.mem_map] at hr
  obtain ⟨i, _, rfl⟩ := hr
  exact hg _

theorem matMul_length {α : Type} [Mul α] [Add α] [Zero α] (A B : Mat α) :
    (matMul A B).length = A.length := by simp [matMul]

theorem matMul_rect {α : Type} [Mul α] [Add α] [Zero α] (A B : Mat α) :
    IsRect (matMul A B) ((B.headD []).length) := by
  intro r hr
  simp only [matMul, List.mem_map] at hr
  obtain ⟨u, _, rfl⟩ := hr
  simp

theorem transposeM_length {α : Type} [Zero α] (A : Mat α) :
    (transposeM A).length = (A.headD []).length := by simp [transposeM]

theorem randNormal_length {α : Type} [Mul α] (stream : ℕ → α) (pos : ℕ)
    (std : α) (rows cols : ℕ) :
    (randNormal stream pos std rows cols).length = rows := by simp [randNormal]

theorem randNormal_headD_length {α : Type} [Mul α] (stream : ℕ → α) (pos : ℕ)
    (std : α) {rows : ℕ} (h : 0 < rows) (cols : ℕ) :
    ((randNormal stream pos std rows cols).headD []).length = cols := by
  obtain ⟨m, rfl⟩ := Nat.exists_eq_add_of_lt h
  simp [randNormal, List.range_succ_eq_map]

theorem calibPert_length {α : Type} [Field α] (invSqrt stream : ℕ → α)
    (pos : ℕ) {C : Mat α} (h0 : C ≠ []) (n : ℕ) :
    (calibPert invSqrt stream pos C n).length = n := by
  rw [calibPert, matMul_length, transposeM_length,
    randNormal_headD_length _ _ _ (List.length_pos.mpr h0) n]

theorem calibPert_rect {α : Type} [Field α] (invSqrt stream : ℕ → α)
    (pos : ℕ) {C : Mat α} {f : ℕ} (h0 : C ≠ []) (hC : IsRect C f) (n : ℕ) :
    IsRect (calibPert invSqrt stream pos C n) f := by
  have := matMul_rect (transposeM (randNormal stream pos (invSqrt C.length) C.length n)) C
  rwa [headD_length_of_rect h0 hC] at this

theorem applySource_shape {α : Type} [Field α] (invSqrt stream : ℕ → α)
    (n idx : ℕ) {f : ℕ} (acc : Mat α × ℕ) (src : VSource α)
    (hB : acc.1.length = n) (hBr : IsRect acc.1 f) (hs : SourceWF f src) :
    ((applySource invSqrt stream n idx acc src).1).length = n ∧
      IsRect ((applySource invSqrt stream n idx acc src).1) f := by
  cases src with
  | gen g =>
      refine ⟨?_, matAdd_rect hBr (genNoise_rect hs n idx)⟩
      rw [applySource, matAdd_length, genNoise_length, hB, Nat.min_self]
  | calib C =>
      obtain ⟨h0, hC⟩ := hs
      refine ⟨?_, matAdd_rect hBr (calibPert_rect invSqrt stream acc.2 h0 hC n)⟩
      rw [applySource, matAdd_length, calibPert_length invSqrt stream acc.2 h0 n,
        hB, Nat.min_self]

theorem genBlock_foldl_shape {α : Type} [Field α] (invSqrt stream : ℕ → α)
    (n idx : ℕ) {f : ℕ} :
    ∀ (sources : List (VSource α)) (acc : Mat α × ℕ),
    (∀ t ∈ sources, SourceWF f t) → acc.1.length = n → IsRect acc.1 f →
    (sources.foldl (applySource invSqrt stream n idx) acc).1.length = n ∧
      IsRect (sources.foldl (applySource invSqrt stream n idx) acc).1 f
  | [], acc, _, h1, h2 => ⟨h1, h2⟩
  | t :: rest, acc, hs, h1, h2 => by
      have step := applySource_shape invSqrt stream n idx acc t h1 h2 (hs t (by simp))
      exact genBlock_foldl_shape invSqrt stream n idx rest _
        (fun u hu => hs u (by simp [hu])) step.1 step.2

theorem genBlock_shape {α : Type} [Field α] (invSqrt stream : ℕ → α)
    (sources : List (VSource α)) (n idx : ℕ) {f : ℕ} (s : Vec α) (pos : ℕ)
    (hs : s.length = f) (hsrc : ∀ t ∈ sources, SourceWF f t) :
    (genBlock invSqrt stream sources n idx s pos).1.length = n ∧
      IsRect (genBlock invSqrt stream sources n idx s pos).1 f := by
  refine genBlock_foldl_shape invSqrt stream n idx sources _ hsrc (by simp) ?_
  intro r hr
  rw [List.eq_of_mem_replicate hr, hs]

theorem genBlocks_shape {α : Type} [Field α] (invSqrt stream : ℕ → α)
    (sources : List (VSource α)) (n : ℕ) {f : ℕ}
    (hsrc : ∀ t ∈ sources, SourceWF f t) :
    ∀ (seeds : List (Vec α × Option α)) (idx pos : ℕ),
    (∀ p ∈ seeds, p.1.length = f) →
    (genBlocks invSqrt stream sources n seeds idx pos).1.length = seeds.length ∧
      ∀ b ∈ (genBlocks invSqrt stream sources n seeds idx pos).1,
        b.length = n ∧ IsRect b f
  | [], idx, pos, _ => by simp [genBlocks]
  | p :: rest, idx, pos, hseeds => by
      have hp := genBlock_shape invSqrt stream sources n idx p.1 pos
        (hseeds p (by simp)) hsrc
      have ih := genBlocks_shape invSqrt stream sources n hsrc rest (idx + 1)
        (genBlock invSqrt stream sources n idx p.1 pos).2
        (fun q hq => hseeds q (by simp [hq]))
      constructor
      · simpa [genBlocks] using ih.1
      · intro b hb
        simp only [genBlocks, List.mem_cons] at hb
        rcases hb with rfl | hb
        · exact hp
        · exact ih.2 b hb

/-! ### Seed-derivation lemmas -/

theorem foldl_vecAdd_length {α : Type} [Add α] {f : ℕ} :
    ∀ (rs : Mat α) (acc : Vec α), acc.length = f → (∀ v ∈ rs, v.length = f) →
    (rs.foldl vecAdd acc).length = f
  | [], acc, h, _ => h
  | r :: rs, acc, h, hrs => by
      refine foldl_vecAdd_length rs (vecAdd acc r) ?_
        (fun v hv => hrs v (by simp [hv]))
      rw [vecAdd_length, h, hrs r (by simp), Nat.min_self]

theorem sumRows_length {α : Type} [Add α] {A : Mat α} {f : ℕ} (h0 : A ≠ [])
    (hA : IsRect A f) : (sumRows A).length = f := by
  cases A with
  | nil => exact absurd rfl h0
  | cons r rs =>
      exact foldl_vecAdd_length rs r (hA r (by simp))
        (fun v hv => hA v (by simp [hv]))

theorem meanRows_length {α : Type} [Field α] {A : Mat α} {f : ℕ} (h0 : A ≠ [])
    (hA : IsRect A f) : (meanRows A).length = f := by
  rw [meanRows, List.length_map, sumRows_length h0 hA]

theorem selectRows_sub {α : Type} [DecidableEq α] {X : Mat α} {ys : List α}
    {l : α} {r : Vec α} (h : r ∈ selectRows X ys l) : r ∈ X := by
  simp only [selectRows, List.mem_map, List.mem_filter] at h
  obtain ⟨p, ⟨hz, _⟩, rfl⟩ := h
  exact (List.of_mem_zip hz).1

theorem selectRows_ne_nil {α : Type} [DecidableEq α] :
    ∀ (X : Mat α) (ys : List α) (l : α), X.length = ys.length → l ∈ ys →
    selectRows X ys l ≠ []
  | [], ys, l, hlen, hl => by
      cases ys with
      | nil => simp at hl
      | cons b bs => simp at hlen
  | x :: xs, ys, l, hlen, hl => by
      cases ys with
      | nil => simp at hl
      | cons b bs =>
          by_cases hb : b = l
          · subst hb
            simp [selectRows, List.zip_cons_cons, List.filter_cons]
          · have hl' : l ∈ bs := by
              rcases List.mem_cons.mp hl with h | h
              · exact absurd h.symm hb
              · exact h
            have := selectRows_ne_nil xs bs l (by simpa using hlen) hl'
            simpa [selectRows, List.zip_cons_cons, List.filter_cons, hb]
              using this

theorem mem_dedupF {α : Type} [DecidableEq α] :
    ∀ {ys : List α} {l : α}, l ∈ dedupF ys → l ∈ ys
  | [], l, h => by simp [dedupF] at h
  | a :: t, l, h => by
      simp only [dedupF, List.mem_cons] at h
      rcases h with rfl | h
      · simp
      · exact List.mem_cons_of_mem a (mem_dedupF (List.mem_of_mem_filter h))

theorem dedupF_nodup {α : Type} [DecidableEq α] :
    ∀ (ys : List α), (dedupF ys).Nodup
  | [] => List.nodup_nil
  | a :: t => by
      rw [dedupF]
      refine List.Nodup.cons ?_ (List.Nodup.filter _ (dedupF_nodup t))
      intro ha
      have := (List.mem_filter.mp ha).2
      simp at this

theorem dedupF_toFinset {α : Type} [DecidableEq α] :
    ∀ (ys : List α), (dedupF ys).toFinset = ys.toFinset
  | [] => rfl
  | a :: t => by
      ext x
      by_cases hx : x = a
      · subst hx; simp [dedupF]
      · simp only [dedupF, List.toFinset_cons, Finset.mem_insert,
          List.mem_toFinset, List.mem_filter, ← dedupF_toFinset t]
        simp [hx]

theorem dedupF_length {α : Type} [DecidableEq α] (ys : List α) :
    (dedupF ys).length = ys.toFinset.card := by
  rw [← dedupF_toFinset ys, List.toFinset_card_of_nodup (dedupF_nodup ys)]

theorem seeds_length_eq {α : Type} [Field α] [DecidableEq α] (X : Mat α)
    (y : Option (List α)) (strat : String)
    (hy : ∀ ys, y = some ys → ys.length = X.length) :
    (getSeedSamples X y strat).2.length = (getSeedSamples X y strat).1.length := by
  rw [getSeedSamples.eq_def]
  split
  · cases y with
    | none => simp
    | some ys => simpa using hy ys rfl
  · cases y with
    | none => rfl
    | some ys => simp

theorem seeds_rect {α : Type} [Field α] [DecidableEq α] {X : Mat α}
    {y : Option (List α)} {strat : String} {f : ℕ}
    (hX : IsRect X f) (hN : X ≠ [])
    (hy : ∀ ys, y = some ys → ys.length = X.length) :
    ∀ s ∈ (getSeedSamples X y strat).1, s.length = f := by
  intro s hs
  rw [getSeedSamples.eq_def] at hs
  split at hs
  · exact hX s hs
  · cases y with
    | none =>
        simp only [List.mem_singleton] at hs
        subst hs
        exact meanRows_length hN hX
    | some ys =>
        simp only [List.mem_map] at hs
        obtain ⟨l, hl, rfl⟩ := hs
        refine meanRows_length ?_ (fun r hr => hX r (selectRows_sub hr))
        exact selectRows_ne_nil X ys l (hy ys rfl).symm (mem_dedupF hl)

theorem seeds_labels_some {α : Type} [Field α] [DecidableEq α] (X : Mat α)
    (ys : List α) (strat : String) :
    ∀ lab ∈ (getSeedSamples X (some ys) strat).2, ∃ v, lab = some v := by
  intro lab hlab
  rw [getSeedSamples.eq_def] at hlab
  split at hlab <;> simp only [List.mem_map] at hlab <;>
    obtain ⟨v, _, rfl⟩ := hlab <;> exact ⟨v, rfl⟩

/-! ### Unfolding lemmas for `generateSamples` -/

theorem generateSamples_X {α : Type} [Field α] [DecidableEq α]
    (invSqrt stream : ℕ → α) (sources : List (VSource α)) (X : Mat α)
    (strat : String) (n : ℕ) (y : Option (List α)) (pos : ℕ) :
    (generateSamples invSqrt stream sources X strat n y pos).1.1 =
      ((genBlocks invSqrt stream sources n
        ((getSeedSamples X y strat).1.zip (getSeedSamples X y strat).2)
        0 pos).1).flatten := rfl

theorem generateSamples_y_none {α : Type} [Field α] [DecidableEq α]
    (invSqrt stream : ℕ → α) (sources : List (VSource α)) (X : Mat α)
    (strat : String) (n : ℕ) (pos : ℕ) :
    (generateSamples invSqrt stream sources X strat n none pos).1.2 = none := rfl

theorem generateSamples_y_some {α : Type} [Field α] [DecidableEq α]
    (invSqrt stream : ℕ → α) (sources : List (VSource α)) (X : Mat α)
    (strat : String) (n : ℕ) (ys : List α) (pos : ℕ) :
    (generateSamples invSqrt stream sources X strat n (some ys) pos).1.2 =
      some ((((getSeedSamples X (some ys) strat).1.zip
          (getSeedSamples X (some ys) strat).2).map
        (fun p => tileLabel n p.2)).flatten) := rfl

/-- **C2.**  On every valid input (`X` a nonempty rectangular `N × F` matrix,
a valid `seed_strategy`, positive `n_per_seed`, `y` of length `N` when given,
and sources whose feature dimension matches `F`, on which the call returns
rather than raising a broadcast error), `X_gen` has exactly
`numSeeds · n_per_seed` rows of `F` entries each, decomposing into one
`n_per_seed`-row block per seed in seed order; `y_gen` is `none` when `y` is
absent and a label list of the same `numSeeds · n_per_seed` length mirroring
the block grouping when `y` is given. -/
theorem c2_output_shape {α : Type} [Field α] [DecidableEq α]
    (invSqrt stream : ℕ → α) (sources : List (VSource α)) (X : Mat α)
    (strat : String) (n : ℕ) (y : Option (List α)) (pos : ℕ) (F : ℕ)
    (hX : IsRect X F) (hN : X ≠ [])
    (hstrat : strat = "all" ∨ strat = "mean") (hn : 0 < n)
    (hy : ∀ ys, y = some ys → ys.length = X.length)
    (hsrc : ∀ t ∈ sources, SourceWF F t) :
    ((generateSamples invSqrt stream sources X strat n y pos).1.1.length
        = numSeeds X y strat * n)
    ∧ IsRect (generateSamples invSqrt stream sources X strat n y pos).1.1 F
    ∧ (∃ blocks : List (Mat α),
        (generateSamples invSqrt stream sources X strat n y pos).1.1
            = blocks.flatten
        ∧ blocks.length = numSeeds X y strat
        ∧ ∀ b ∈ blocks, b.length = n ∧ IsRect b F)
    ∧ (y = none →
        (generateSamples invSqrt stream sources X strat n y pos).1.2 = none)
    ∧ (∀ ys, y = some ys →
        ∃ lab, (generateSamples invSqrt stream sources X strat n y pos).1.2
            = some lab
          ∧ lab.length = numSeeds X y strat * n) := by
  have hlen2 : (getSeedSamples X y strat).2.length
      = (getSeedSamples X y strat).1.length := seeds_length_eq X y strat hy
  have hzlen : ((getSeedSamples X y strat).1.zip
      (getSeedSamples X y strat).2).length = numSeeds X y strat := by
    rw [List.length_zip, hlen2, Nat.min_self]
    rfl
  have hseeds : ∀ p ∈ (getSeedSamples X y strat).1.zip
      (getSeedSamples X y strat).2, p.1.length = F := by
    rintro ⟨a, b⟩ hp
    exact seeds_rect hX hN hy a (List.of_mem_zip hp).1
  have hgb := genBlocks_shape invSqrt stream sources n hsrc
    ((getSeedSamples X y strat).1.zip (getSeedSamples X y strat).2) 0 pos hseeds
  refine ⟨?_, ?_, ?_, ?_, ?_⟩
  · rw [generateSamples_X,
      flatten_const_length _ (fun b hb => (hgb.2 b hb).1), hgb.1, hzlen]
  · intro r hr
    rw [generateSamples_X] at hr
    obtain ⟨b, hb, hrb⟩ := List.mem_flatten.mp hr
    exact (hgb.2 b hb).2 r hrb
  · exact ⟨_, generateSamples_X invSqrt stream sources X strat n y pos,
      by rw [hgb.1, hzlen], hgb.2⟩
  · rintro rfl
    exact generateSamples_y_none invSqrt stream sources X strat n pos
  · rintro ys rfl
    refine ⟨_, generateSamples_y_some invSqrt stream sources X strat n ys pos, ?_⟩
    rw [flatten_const_length, List.length_map, hzlen]
    intro t ht
    obtain ⟨p, hp, rfl⟩ := List.mem_map.mp ht
    obtain ⟨v, hv⟩ := seeds_labels_some X ys strat p.2 (List.of_mem_zip hp).2
    rw [hv]
    exact List.length_replicate n v

/-- Witness for C2 at a concrete input: `X = [[1,2],[3,4]]`, labels `[5,6]`,
strategy `"all"`, two samples per seed. -/
theorem c2_output_shape_witness :
    ((generateSamples (fun _ => (0:ℚ)) (fun _ => 0) []
        ([[1,2],[3,4]] : Mat ℚ) "all" 2 (some [5,6]) 0).1.1.length
      = numSeeds ([[1,2],[3,4]] : Mat ℚ) (some [5,6]) "all" * 2)
    ∧ IsRect (generateSamples (fun _ => (0:ℚ)) (fun _ => 0) []
        ([[1,2],[3,4]] : Mat ℚ) "all" 2 (some [5,6]) 0).1.1 2
    ∧ (∃ blocks : List (Mat ℚ),
        (generateSamples (fun _ => (0:ℚ)) (fun _ => 0) []
            ([[1,2],[3,4]] : Mat ℚ) "all" 2 (some [5,6]) 0).1.1 = blocks.flatten
        ∧ blocks.length = numSeeds ([[1,2],[3,4]] : Mat ℚ) (some [5,6]) "all"
        ∧ ∀ b ∈ blocks, b.length = 2 ∧ IsRect b 2)
    ∧ ((some [5,6] : Option (List ℚ)) = none →
        (generateSamples (fun _ => (0:ℚ)) (fun _ => 0) []
            ([[1,2],[3,4]] : Mat ℚ) "all" 2 (some [5,6]) 0).1.2 = none)
    ∧ (∀ ys, (some [5,6] : Option (List ℚ)) = some ys →
        ∃ lab, (generateSamples (fun _ => (0:ℚ)) (fun _ => 0) []
            ([[1,2],[3,4]] : Mat ℚ) "all" 2 (some [5,6]) 0).1.2 = some lab
          ∧ lab.length
              = numSeeds ([[1,2],[3,4]] : Mat ℚ) (some [5,6]) "all" * 2) :=
  c2_output_shape (fun _ => (0:ℚ)) (fun _ => 0) [] ([[1,2],[3,4]] : Mat ℚ)
    "all" 2 (some [5,6]) 0 2 (by simp [IsRect]) (by simp) (Or.inl rfl)
    (by decide) (by rintro ys ⟨rfl⟩; rfl) (by simp)

/-- The row count of `X_gen`: one `n`-row block per seed (shared helper). -/
theorem generateSamples_rows {α : Type} [Field α] [DecidableEq α]
    (invSqrt stream : ℕ → α) (sources : List (VSource α)) (X : Mat α)
    (strat : String) (n : ℕ) (y : Option (List α)) (pos : ℕ) {F : ℕ}
    (hX : IsRect X F) (hN : X ≠ [])
    (hy : ∀ ys, y = some ys → ys.length = X.length)
    (hsrc : ∀ t ∈ sources, SourceWF F t) :
    (generateSamples invSqrt stream sources X strat n y pos).1.1.length
      = numSeeds X y strat * n := by
  have hzlen : ((getSeedSamples X y strat).1.zip
      (getSeedSamples X y strat).2).length = numSeeds X y strat := by
    rw [List.length_zip, seeds_length_eq X y strat hy, Nat.min_self]
    rfl
  have hseeds : ∀ p ∈ (getSeedSamples X y strat).1.zip
      (getSeedSamples X y strat).2, p.1.length = F := by
    rintro ⟨a, b⟩ hp
    exact seeds_rect hX hN hy a (List.of_mem_zip hp).1
  have hgb := genBlocks_shape invSqrt stream sources n hsrc
    ((getSeedSamples X y strat).1.zip (getSeedSamples X y strat).2) 0 pos hseeds
  rw [generateSamples_X,
    flatten_const_length _ (fun b hb => (hgb.2 b hb).1), hgb.1, hzlen]

/-- **C3.**  With `seed_strategy = "mean"` and labels `ys` carrying `L`
distinct values, the call derives exactly `L` seeds — for each distinct label
the column-wise mean of the rows carrying it, tagged with that label — and
returns `L · n_per_seed` rows, with `y_gen` made of one constant
`n_per_seed`-tile per seed holding that seed's label.  (Python's `set`
iteration order is unspecified; the model fixes first-occurrence order
`dedupF`, and none of the counted facts depend on the order.) -/
theorem c3_mean_label_seeds {α : Type} [Field α] [DecidableEq α]
    (invSqrt stream : ℕ → α) (sources : List (VSource α)) (X : Mat α)
    (ys : List α) (n pos F L : ℕ)
    (hX : IsRect X F) (hN : X ≠ []) (hlen : ys.length = X.length)
    (hsrc : ∀ t ∈ sources, SourceWF F t) (hL : ys.toFinset.card = L) :
    ((getSeedSamples X (some ys) "mean").1
        = (dedupF ys).map (fun l => meanRows (selectRows X ys l)))
    ∧ ((getSeedSamples X (some ys) "mean").2 = (dedupF ys).map some)
    ∧ (dedupF ys).length = L
    ∧ numSeeds X (some ys) "mean" = L
    ∧ (generateSamples invSqrt stream sources X "mean" n (some ys) pos).1.1.length
        = L * n
    ∧ (generateSamples invSqrt stream sources X "mean" n (some ys) pos).1.2
        = some (((dedupF ys).map (fun l => List.replicate n l)).flatten) := by
  have hdl : (dedupF ys).length = L := by rw [dedupF_length, hL]
  have hns : numSeeds X (some ys) "mean" = L := by
    rw [numSeeds, getSeedSamples]
    simp [hdl]
  refine ⟨rfl, rfl, hdl, hns, ?_, ?_⟩
  · rw [generateSamples_rows invSqrt stream sources X "mean" n (some ys) pos hX
      hN (by rintro zs ⟨rfl⟩; exact hlen) hsrc, hns]
  · rw [generateSamples_y_some]
    congr 1
    have h1 : (getSeedSamples X (some ys) "mean").1
        = (dedupF ys).map (fun l => meanRows (selectRows X ys l)) := rfl
    have h2 : (getSeedSamples X (some ys) "mean").2 = (dedupF ys).map some := rfl
    rw [h1, h2, List.zip_map', List.map_map]
    rfl

/-- Witness for C3 at a concrete input: `X = [[1,2],[3,4]]` with labels
`[5,6]` (two distinct values). -/
theorem c3_mean_label_seeds_witness :
    ((getSeedSamples ([[1,2],[3,4]] : Mat ℚ) (some [5,6]) "mean").1
        = (dedupF [5,6]).map (fun l => meanRows (selectRows [[1,2],[3,4]] [5,6] l)))
    ∧ ((getSeedSamples ([[1,2],[3,4]] : Mat ℚ) (some [5,6]) "mean").2
        = (dedupF [5,6]).map some)
    ∧ (dedupF ([5,6] : List ℚ)).length = 2
    ∧ numSeeds ([[1,2],[3,4]] : Mat ℚ) (some [5,6]) "mean" = 2
    ∧ (generateSamples (fun _ => (0:ℚ)) (fun _ => 0) [] [[1,2],[3,4]] "mean" 3
        (some [5,6]) 0).1.1.length = 2 * 3
    ∧ (generateSamples (fun _ => (0:ℚ)) (fun _ => 0) [] [[1,2],[3,4]] "mean" 3
        (some [5,6]) 0).1.2
        = some (((dedupF ([5,6] : List ℚ)).map (fun l => List.replicate 3 l)).flatten) :=
  c3_mean_label_seeds (fun _ => (0:ℚ)) (fun _ => 0) [] [[1,2],[3,4]] [5,6]
    3 0 2 2 (by simp [IsRect]) (by simp) (by rfl) (by simp) (by decide)

/-- **C4.**  The concrete scenario: `X = [[1,2],[3,4]]`, no labels, strategy
`"mean"`, no variability sources, `n_per_seed = 3` yields three identical
rows `[2, 3]` (the column-wise mean) and no labels, for any generator stream
(none is consumed). -/
theorem c4_concrete_mean_scenario (invSqrt stream : ℕ → ℚ) :
    generateSamples invSqrt stream [] ([[1,2],[3,4]] : Mat ℚ) "mean" 3 none 0
      = (([[2,3],[2,3],[2,3]], none), 0) := by
  norm_num [generateSamples, getSeedSamples, genBlocks, genBlock, applySource,
    meanRows, sumRows, vecAdd, List.replicate]

/-- `zip` with the `n`-fold `none` labels of the `"all"`/no-`y` branch. -/
theorem zip_replicate_none {β γ : Type} (l : List β) :
    l.zip (List.replicate l.length (none : Option γ))
      = l.map (fun a => (a, (none : Option γ))) := by
  induction l with
  | nil => rfl
  | cons a t ih => simp [List.replicate_succ, ih]

theorem vecAdd_replicate_zero {α : Type} [AddMonoid α] :
    ∀ (v : Vec α), vecAdd v (List.replicate v.length 0) = v
  | [] => rfl
  | a :: t => by
      simp only [List.length_cons, List.replicate_succ, vecAdd,
        List.zipWith_cons_cons, add_zero]
      exact congrArg (a :: ·) (vecAdd_replicate_zero t)

theorem foldl_fixed {β γ : Type} (f : β → γ → β) :
    ∀ (l : List γ) (acc : β), (∀ x ∈ l, f acc x = acc) → l.foldl f acc = acc
  | [], acc, _ => rfl
  | x :: l, acc, h => by
      rw [List.foldl_cons, h x (by simp)]
      exact foldl_fixed f l acc (fun u hu => h u (by simp [hu]))

/-- A block built from zero-returning generator sources is the untouched tile. -/
theorem genBlock_zero_sources {α : Type} [Field α] (invSqrt stream : ℕ → α)
    {sources : List (VSource α)} {F : ℕ} (k idx : ℕ)
    (hz : ∀ t ∈ sources, ∃ g, t = VSource.gen g ∧ ∀ j, g j = List.replicate F 0)
    {s : Vec α} (hs : s.length = F) (pos : ℕ) :
    genBlock invSqrt stream sources k idx s pos = (List.replicate k s, pos) := by
  refine foldl_fixed _ sources _ ?_
  intro t ht
  obtain ⟨g, rfl, hg⟩ := hz t ht
  have hnoise : genNoise g k idx = List.replicate k (List.replicate F 0) := by
    rw [genNoise]
    have : (fun i => g (idx * k + i)) = (fun _ : ℕ => List.replicate F (0:α)) := by
      funext i
      exact hg _
    rw [this, List.map_const', List.length_range]
  rw [applySource, hnoise, matAdd, List.zipWith_replicate, Nat.min_self]
  have : vecAdd s (List.replicate F (0:α)) = s := by
    have := vecAdd_replicate_zero (α := α) s
    rwa [hs] at this
  rw [this]

theorem genBlocks_zero_sources {α : Type} [Field α] (invSqrt stream : ℕ → α)
    {sources : List (VSource α)} {F : ℕ} (k : ℕ)
    (hz : ∀ t ∈ sources, ∃ g, t = VSource.gen g ∧ ∀ j, g j = List.replicate F 0) :
    ∀ (rows : Mat α) (idx pos : ℕ), (∀ r ∈ rows, r.length = F) →
    genBlocks invSqrt stream sources k
        (rows.map (fun r => (r, (none : Option α)))) idx pos
      = (rows.map (fun r => List.replicate k r), pos)
  | [], idx, pos, _ => rfl
  | r :: rows, idx, pos, hr => by
      simp only [List.map_cons, genBlocks]
      rw [genBlock_zero_sources invSqrt stream k idx hz (hr r (by simp)) pos,
        genBlocks_zero_sources invSqrt stream k hz rows (idx + 1) pos
          (fun u hu => hr u (by simp [hu]))]

/-- **C5.**  With `seed_strategy = "all"` and every variability source a
deterministic zero-returning generator, `X_gen` is exactly each row of `X`
repeated `k` times, block by block in row order — `N·k` rows in total.
`X` must be nonempty: with zero rows the seed list is empty and the code
raises `ValueError` at `np.vstack([])` (line 83) instead of returning, a
path outside this returning-call statement. -/
theorem c5_all_zero_perturbation {α : Type} [Field α] [DecidableEq α]
    (invSqrt stream : ℕ → α) (sources : List (VSource α)) (X : Mat α)
    (k pos F : ℕ) (hX : IsRect X F) (hN : X ≠ [])
    (hz : ∀ t ∈ sources, ∃ g, t = VSource.gen g ∧ ∀ j, g j = List.replicate F 0) :
    (generateSamples invSqrt stream sources X "all" k none pos).1.1
        = (X.map (fun r => List.replicate k r)).flatten
    ∧ (generateSamples invSqrt stream sources X "all" k none pos).1.1.length
        = X.length * k := by
  have hseed : (getSeedSamples X (none : Option (List α)) "all").1.zip
      (getSeedSamples X (none : Option (List α)) "all").2
      = X.map (fun r => (r, (none : Option α))) := by
    rw [getSeedSamples]
    simp only [if_pos rfl]
    exact zip_replicate_none X
  have hmain : (generateSamples invSqrt stream sources X "all" k none pos).1.1
      = (X.map (fun r => List.replicate k r)).flatten := by
    rw [generateSamples_X, hseed,
      genBlocks_zero_sources invSqrt stream k hz X 0 pos (fun r hr => hX r hr)]
  refine ⟨hmain, ?_⟩
  rw [hmain, flatten_const_length, List.length_map]
  intro b hb
  obtain ⟨r, _, rfl⟩ := List.mem_map.mp hb
  exact List.length_replicate k r

/-- Witness for C5 at a concrete input: `X = [[1],[2]]`, one zero-returning
generator source, `k = 2`. -/
theorem c5_all_zero_perturbation_witness :
    (generateSamples (fun _ => (0:ℚ)) (fun _ => 0)
        [VSource.gen (fun _ => [0])] [[1],[2]] "all" 2 none 0).1.1
        = (([[1],[2]] : Mat ℚ).map (fun r => List.replicate 2 r)).flatten
    ∧ (generateSamples (fun _ => (0:ℚ)) (fun _ => 0)
        [VSource.gen (fun _ => [0])] [[1],[2]] "all" 2 none 0).1.1.length
        = ([[1],[2]] : Mat ℚ).length * 2 :=
  c5_all_zero_perturbation (fun _ => (0:ℚ)) (fun _ => 0)
    [VSource.gen (fun _ => [0])] [[1],[2]] 2 0 1 (by simp [IsRect]) (by simp)
    (by
      intro t ht
      simp only [List.mem_singleton] at ht
      exact ⟨_, ht, fun j => rfl⟩)

/-- **C6.**  Two CODI instances constructed from the same sources and the same
integer seed (hence, numpy guarantees, the same normal-draw stream) return
identical results on identical `generate_samples` inputs. -/
theorem c6_two_run_determinism {α : Type} [Field α] [DecidableEq α]
    (invSqrt : ℕ → α) (seedStream : Option ℤ → ℕ → α)
    (sources : List (VSource α)) (s : ℤ) (c1 c2 : CODI α)
    (h1 : c1 = mkCODI sources (some s)) (h2 : c2 = mkCODI sources (some s))
    (X : Mat α) (strat : String) (n : ℕ) (y : Option (List α)) :
    CODI.generate invSqrt seedStream c1 X strat n y
      = CODI.generate invSqrt seedStream c2 X strat n y := by
  rw [h1, h2]

/-- Witness for C6 at a concrete input. -/
theorem c6_two_run_determinism_witness :
    CODI.generate (fun _ => (0:ℚ)) (fun _ _ => 0)
        (mkCODI [] (some 7)) [[1]] "all" 1 none
      = CODI.generate (fun _ => (0:ℚ)) (fun _ _ => 0)
        (mkCODI [] (some 7)) [[1]] "all" 1 none :=
  c6_two_run_determinism (fun _ => (0:ℚ)) (fun _ _ => 0) [] 7
    (mkCODI [] (some 7)) (mkCODI [] (some 7)) rfl rfl [[1]] "all" 1 none

/-! ### Validation claims -/

/-- **C7, counterexample.**  The claim says a 1-D numeric array raises
`InvalidArgument` before any generation work; but the sanity checks accept the
1-D array `[1, 2]` (the code only tests `isinstance(X, np.ndarray)`, never the
dimensionality), so no error is raised by the validation that precedes all
generation work. -/
theorem c7_counterexample :
    NpA.ndim (NpA.one ([1,2] : List ℚ)) = 1
    ∧ checkArgs (PyV.arr (NpA.one ([1,2] : List ℚ))) "mean" (PyInt.int 3) none
        = Except.ok () :=
  ⟨rfl, by simp [checkArgs, isNd, yNotArr, npsOk, lenMismatch]⟩

/-- **C7 (amended).**  `generate_samples` raises `InvalidArgument` for `X`
exactly when `X` is not a numpy array at all; the dimensionality of an array
`X` is never validated — the checks cannot even distinguish two array
arguments with the same leading shape entry. -/
theorem c7_x_validation {α : Type} (X : PyV α) (strat : String) (np : PyInt)
    (y : Option (PyV α)) :
    (isNd X = false →
      checkArgs X strat np y = Except.error "X must be a NumPy array")
    ∧ ∀ (a b : NpA α), a.shape0 = b.shape0 →
        checkArgs (PyV.arr a) strat np y = checkArgs (PyV.arr b) strat np y := by
  constructor
  · intro h
    rw [checkArgs, if_pos h]
  · intro a b hab
    have hmm : lenMismatch (PyV.arr a) y = lenMismatch (PyV.arr b) y := by
      cases y with
      | none => rfl
      | some v => cases v with
          | arr c => simp [lenMismatch, hab]
          | notArr => rfl
    simp only [checkArgs, isNd, hmm]

/-- **C8.**  A non-array `X`, a strategy outside `{"all", "mean"}`, an
`n_per_seed` that is not an `int` or is `< 1`, or arrays `X`, `y` with
differing leading dimensions: each makes the call fail on one of the sanity
checks (src/CODI.py lines 50-60).  The checks precede all generation work, so
the error return carries no output and does not touch the generator position
(an `Except.error` of `generateChecked` is produced before the state-threading
begins). -/
theorem c8_invalid_args_raise {α : Type} [Field α] [DecidableEq α]
    (invSqrt stream : ℕ → α) (sources : List (VSource α)) (X : PyV α)
    (strat : String) (np : PyInt) (y : Option (PyV α)) (pos : ℕ)
    (h : isNd X = false ∨ (strat ≠ "all" ∧ strat ≠ "mean")
        ∨ npsOk np = false ∨ lenMismatch X y = true) :
    ∃ e, generateChecked invSqrt stream sources X strat np y pos
          = Except.error e
      ∧ checkArgs X strat np y = Except.error e := by
  have hcases : checkArgs X strat np y = Except.ok ()
      ∨ ∃ e, checkArgs X strat np y = Except.error e := by
    rw [checkArgs]
    split_ifs <;> first
      | exact Or.inl rfl
      | exact Or.inr ⟨_, rfl⟩
  have himp : checkArgs X strat np y = Except.ok () →
      isNd X = true ∧ yNotArr y = false ∧ (strat = "all" ∨ strat = "mean")
        ∧ npsOk np = true ∧ lenMismatch X y = false := by
    intro hok
    rw [checkArgs] at hok
    split_ifs at hok with h1 h2 h3 h4 h5
    exact ⟨by simpa using h1, by simpa using h2, h3,
      by simpa using h4, by simpa using h5⟩
  rcases hcases with hok | ⟨e, he⟩
  · obtain ⟨g1, g2, g3, g4, g5⟩ := himp hok
    rcases h with hx | ⟨hs1, hs2⟩ | hn | hm
    · rw [g1] at hx; cases hx
    · rcases g3 with hs | hs
      · exact absurd hs hs1
      · exact absurd hs hs2
    · rw [g4] at hn; cases hn
    · rw [g5] at hm; cases hm
  · refine ⟨e, ?_, he⟩
    rw [generateChecked.eq_def, he]

/-- Witness for C8 at a concrete invalid input: a non-array `X`. -/
theorem c8_invalid_args_raise_witness :
    ∃ e, generateChecked (fun _ => (0:ℚ)) (fun _ => 0) [] PyV.notArr "mean"
          (PyInt.int 3) none 0 = Except.error e
      ∧ checkArgs (PyV.notArr : PyV ℚ) "mean" (PyInt.int 3) none
          = Except.error e :=
  c8_invalid_args_raise (fun _ => (0:ℚ)) (fun _ => 0) [] PyV.notArr "mean"
    (PyInt.int 3) none 0 (Or.inl rfl)

theorem elemsCheck_ok_iff {α : Type} :
    ∀ (xs : List (PyO α)), elemsCheck xs = Except.ok ()
      ↔ ∀ x ∈ xs, srcOk x = true
  | [] => by simp [elemsCheck]
  | x :: xs => by
      by_cases hx : srcOk x
      · simp [elemsCheck, hx, elemsCheck_ok_iff xs]
      · simp [elemsCheck, hx]

/-- **C9, counterexample.**  The claim says construction fails when some
element is neither a zero-argument callable nor a 2-D numeric array; but
`__init__` accepts a list containing the 1-D array `[0]` (the code tests
`callable(source) or isinstance(source, np.ndarray)`, never the
dimensionality or the arity). -/
theorem c9_counterexample :
    initCheck (PySrcs.pyList [PyO.arr (NpA.one ([0] : List ℚ))]) = Except.ok ()
    ∧ isCallable (PyO.arr (NpA.one ([0] : List ℚ))) = false
    ∧ NpA.ndim (NpA.one ([0] : List ℚ)) = 1 :=
  ⟨rfl, rfl, rfl⟩

/-- **C9 (amended).**  Construction succeeds exactly when the sources argument
is a Python list or a numpy array each of whose elements is callable (of any
arity) or a numpy array (of any dimensionality); tuples and other sequences
are rejected regardless of their elements, and element arity/dimensionality
is never validated. -/
theorem c9_construction_check {α : Type} (s : PySrcs α) :
    initCheck s = Except.ok ()
      ↔ (seqOk s = true ∧ ∀ x ∈ s.elems, srcOk x = true) := by
  cases s with
  | pyList xs => simp [initCheck, seqOk, PySrcs.elems, elemsCheck_ok_iff]
  | pyNd xs => simp [initCheck, seqOk, PySrcs.elems, elemsCheck_ok_iff]
  | pyTuple xs => simp [initCheck, seqOk]
  | pyOther => simp [initCheck, seqOk]

/-! ### The calibration-set perturbation, entry-wise (C1) -/

theorem dotL_range_map {α : Type} [Field α] :
    ∀ (m : ℕ) (h : ℕ → α) (v : List α), v.length = m →
    dotL ((List.range m).map h) v = ∑ k ∈ Finset.range m, h k * v.getD k 0
  | 0, h, v, hv => by
      rw [List.length_eq_zero] at hv
      subst hv
      simp [dotL]
  | m + 1, h, v, hv => by
      cases v with
      | nil => simp at hv
      | cons a t =>
          have ht : t.length = m := by simpa using hv
          have ih := dotL_range_map m (fun k => h (k + 1)) t ht
          rw [dotL] at ih ⊢
          rw [List.range_succ_eq_map, List.map_cons, List.map_map,
            List.zipWith_cons_cons, List.sum_cons, Finset.sum_range_succ']
          have hcomp : (h ∘ Nat.succ) = fun k => h (k + 1) := rfl
          rw [hcomp, ih]
          simp only [List.getD_cons_zero, List.getD_cons_succ]
          exact add_comm _ _

theorem transposeM_randNormal_row {α : Type} [Field α] (stream : ℕ → α)
    (pos : ℕ) (std : α) {M n : ℕ} (hM : 0 < M) {r : ℕ} (hr : r < n) :
    (transposeM (randNormal stream pos std M n)).getD r []
      = (List.range M).map (fun k => std * stream (pos + (k * n + r))) := by
  rw [transposeM, randNormal_headD_length stream pos std hM n,
    getD_range_map _ hr, randNormal, List.map_map]
  refine List.map_congr_left ?_
  intro k _
  exact getD_range_map _ hr _

theorem matMul_entry {α : Type} [Field α] (A B : Mat α) {r : ℕ}
    (hr : r < A.length) {j : ℕ} (hj : j < (B.headD []).length) :
    ((matMul A B).getD r []).getD j 0
      = dotL (A.getD r []) (B.map (fun row => row.getD j 0)) := by
  rw [matMul, getD_map_getD _ _ hr [] [], getD_range_map _ hj]

theorem calibPert_entry {α : Type} [Field α] (invSqrt stream : ℕ → α)
    (pos : ℕ) {C : Mat α} {M F n : ℕ} (hM : C.length = M) (h0 : 0 < M)
    (hC : IsRect C F) {r f : ℕ} (hr : r < n) (hf : f < F) :
    ((calibPert invSqrt stream pos C n).getD r []).getD f 0
      = ∑ k ∈ Finset.range M,
          invSqrt M * stream (pos + (k * n + r)) * ((C.getD k []).getD f 0) := by
  subst hM
  have hne : C ≠ [] := List.length_pos.mp h0
  have hhead : (C.headD []).length = F := headD_length_of_rect hne hC
  rw [calibPert,
    matMul_entry _ _
      (by
        rw [transposeM_length, randNormal_headD_length stream pos _ h0 n]
        exact hr)
      (by rw [hhead]; exact hf),
    transposeM_randNormal_row stream pos _ h0 hr,
    dotL_range_map C.length _ (C.map (fun row => row.getD f 0)) (by simp)]
  refine Finset.sum_congr rfl ?_
  intro k hk
  rw [getD_map_getD _ _ (Finset.mem_range.mp hk) 0 []]

/-- **C1.**  For a calibration-set source `C` of shape `(M, F)`, the source
loop step of `generate_samples` adds to the current `n_per_seed × F` block the
product of the transpose of an `(M × n_per_seed)` matrix of normal draws with
mean 0 and standard deviation `1/√M` — taken from the instance's own
generator, which advances by `M·n_per_seed` draws — with the calibration set:
entry-wise, row `r` of the block gains
`∑ k < M, (1/√M) · z_(pos + k·n + r) · C[k]` — a random linear combination of
the calibration observations. -/
theorem c1_calibration_perturbation (stream : ℕ → ℝ) (n idx pos : ℕ)
    (B C : Mat ℝ) (M F : ℕ) (hM : C.length = M) (h0 : 0 < M)
    (hC : IsRect C F) (hB : B.length = n) (hBr : IsRect B F) :
    (applySource npInvSqrt stream n idx (B, pos) (VSource.calib C)
        = (matAdd B (matMul (transposeM
            (randNormal stream pos (1 / Real.sqrt M) M n)) C), pos + M * n))
    ∧ ∀ r, r < n → ∀ f, f < F →
        ((applySource npInvSqrt stream n idx (B, pos)
            (VSource.calib C)).1.getD r []).getD f 0
          = ((B.getD r []).getD f 0)
            + ∑ k ∈ Finset.range M,
                (1 / Real.sqrt M) * stream (pos + (k * n + r))
                  * ((C.getD k []).getD f 0) := by
  subst hM
  constructor
  · rfl
  · intro r hr f hf
    have hne : C ≠ [] := List.length_pos.mp h0
    have hPlen : (calibPert npInvSqrt stream pos C n).length = n :=
      calibPert_length npInvSqrt stream pos hne n
    have hProw : ((calibPert npInvSqrt stream pos C n).getD r []).length = F :=
      rect_getD_length (calibPert_rect npInvSqrt stream pos hne hC n)
        (by rw [hPlen]; exact hr)
    have hBrow : ((B.getD r []).length = F) :=
      rect_getD_length hBr (by rw [hB]; exact hr)
    have happ : (applySource npInvSqrt stream n idx (B, pos)
        (VSource.calib C)).1 = matAdd B (calibPert npInvSqrt stream pos C n) := rfl
    rw [happ, matAdd,
      zipWith_getD vecAdd B _ r (by rw [hB]; exact hr) (by rw [hPlen]; exact hr)
        [] [] [],
      vecAdd,
      zipWith_getD (· + ·) _ _ f (by rw [hBrow]; exact hf)
        (by rw [hProw]; exact hf) 0 0 0,
      calibPert_entry npInvSqrt stream pos rfl h0 hC hr hf]
    simp only [npInvSqrt]

/-- Witness for C1 at a concrete input: a one-row calibration set `[[2]]`,
block `[[5]]`, `n_per_seed = 1`. -/
theorem c1_calibration_perturbation_witness :
    (applySource npInvSqrt (fun _ => (0:ℝ)) 1 0 ([[5]], 0) (VSource.calib [[2]])
        = (matAdd [[5]] (matMul (transposeM
            (randNormal (fun _ => (0:ℝ)) 0 (1 / Real.sqrt ((1:ℕ):ℝ)) 1 1)) [[2]]),
           0 + 1 * 1))
    ∧ ∀ r, r < 1 → ∀ f, f < 1 →
        ((applySource npInvSqrt (fun _ => (0:ℝ)) 1 0 ([[5]], 0)
            (VSource.calib [[2]])).1.getD r []).getD f 0
          = ((([[5]] : Mat ℝ).getD r []).getD f 0)
            + ∑ k ∈ Finset.range 1,
                (1 / Real.sqrt ((1:ℕ):ℝ)) * (fun _ => (0:ℝ)) (0 + (k * 1 + r))
                  * ((([[2]] : Mat ℝ).getD k []).getD f 0) :=
  c1_calibration_perturbation (fun _ => (0:ℝ)) 1 0 0 [[5]] [[2]] 1 1 rfl
    (by decide) (by simp [IsRect]) (by simp) (by simp [IsRect])

/-! ### Frame preservation (C10) -/

theorem pres_refl {α : Type} (σ : Store α) : Pres σ σ :=
  ⟨Nat.le_refl _, fun _ _ _ => rfl⟩

theorem pres_trans {α : Type} {a b c : Store α} (h1 : Pres a b) (h2 : Pres b c) :
    Pres a c :=
  ⟨Nat.le_trans h1.1 h2.1,
   fun i hi d => by rw [h2.2 i (Nat.lt_of_lt_of_le hi h1.1) d, h1.2 i hi d]⟩

theorem pres_alloc {α : Type} (σ : Store α) (c : Cell α) :
    Pres σ (allocC σ c).1 :=
  ⟨by simp [allocC], fun i hi d => List.getD_append _ _ d i hi⟩

theorem pres_set_ge {α : Type} {σ0 σ : Store α} {b : ℕ} (hb : σ0.length ≤ b)
    (h : Pres σ0 σ) (c : Cell α) : Pres σ0 (σ.set b c) := by
  refine ⟨by rw [List.length_set]; exact h.1, fun i hi d => ?_⟩
  have hne : b ≠ i := Nat.ne_of_gt (Nat.lt_of_lt_of_le hi hb)
  rw [List.getD_eq_getElem?_getD, List.getElem?_set_ne hne,
    ← List.getD_eq_getElem?_getD]
  exact h.2 i hi d

theorem foldl_applySourceS_pres {α : Type} [Field α] (invSqrt stream : ℕ → α)
    (n idx : ℕ) {σ0 : Store α} {b : ℕ} (hb : σ0.length ≤ b) :
    ∀ (sources : List (VSource α)) (acc : Store α × ℕ), Pres σ0 acc.1 →
    Pres σ0 (sources.foldl (applySourceS invSqrt stream n idx b) acc).1
  | [], acc, h => h
  | t :: rest, acc, h => by
      refine foldl_applySourceS_pres invSqrt stream n idx hb rest _ ?_
      cases t with
      | gen g => exact pres_set_ge hb h _
      | calib C => exact pres_set_ge hb h _

theorem genLoopS_pres {α : Type} [Field α] (invSqrt stream : ℕ → α)
    (sources : List (VSource α)) (n : ℕ) {σ0 : Store α} :
    ∀ (seeds : List (Vec α × Option α)) (idx : ℕ) (σ : Store α) (pos : ℕ),
    Pres σ0 σ →
    Pres σ0 (genLoopS invSqrt stream sources n seeds idx σ pos).1
  | [], _, σ, pos, h => h
  | p :: rest, idx, σ, pos, h => by
      have htile : Pres σ0 (allocC σ (.mat (List.replicate n p.1))).1 :=
        pres_trans h (pres_alloc σ _)
      have hb : σ0.length ≤ σ.length := h.1
      have hfold := foldl_applySourceS_pres invSqrt stream n idx hb sources
        ((allocC σ (.mat (List.replicate n p.1))).1, pos) htile
      exact genLoopS_pres invSqrt stream sources n rest (idx + 1) _ _ hfold

theorem generateSamplesS_pres {α : Type} [Field α] [DecidableEq α]
    (invSqrt stream : ℕ → α) (sources : List (VSource α)) (σ : Store α)
    (xi : ℕ) (yi : Option ℕ) (strat : String) (n pos : ℕ) :
    Pres σ (generateSamplesS invSqrt stream sources σ xi yi strat n pos).1 := by
  cases yi with
  | none =>
      exact pres_trans
        (genLoopS_pres invSqrt stream sources n _ 0 _ pos (pres_alloc σ _))
        (pres_alloc _ _)
  | some j =>
      exact pres_trans
        (genLoopS_pres invSqrt stream sources n _ 0 _ pos
          (pres_trans (pres_alloc σ _) (pres_alloc _ _)))
        (pres_trans (pres_alloc _ _) (pres_alloc _ _))

/-- **C10.**  A returning `generate_samples` call leaves the caller's arrays
untouched: run against an explicit store, every cell allocated before the call
— in particular the cells holding the caller's `X` and `y` — reads back
unchanged afterwards, because `astype` and `np.tile` copy into fresh cells and
the only in-place writes (`X_gen_ += …`) target the fresh tile cells. -/
theorem c10_caller_arrays_unmodified {α : Type} [Field α] [DecidableEq α]
    (invSqrt stream : ℕ → α) (sources : List (VSource α)) (σ : Store α)
    (xi : ℕ) (yi : Option ℕ) (strat : String) (n pos : ℕ) (i : ℕ)
    (hi : i < σ.length) (c : Cell α) :
    ((generateSamplesS invSqrt stream sources σ xi yi strat n pos).1).getD i c
      = σ.getD i c :=
  (generateSamplesS_pres invSqrt stream sources σ xi yi strat n pos).2 i hi c

/-- Witness for C10 at a concrete input: a store holding the caller's
`X = [[1]]` at address 0 and `y = [4]` at address 1. -/
theorem c10_caller_arrays_unmodified_witness :
    ((generateSamplesS (fun _ => (0:ℚ)) (fun _ => 0) []
          [Cell.mat [[1]], Cell.vec [4]] 0 (some 1) "all" 2 0).1).getD 0
        (Cell.mat [])
      = ([Cell.mat [[1]], Cell.vec [4]] : Store ℚ).getD 0 (Cell.mat [])
    ∧ ((generateSamplesS (fun _ => (0:ℚ)) (fun _ => 0) []
          [Cell.mat [[1]], Cell.vec [4]] 0 (some 1) "all" 2 0).1).getD 1
        (Cell.vec [])
      = ([Cell.mat [[1]], Cell.vec [4]] : Store ℚ).getD 1 (Cell.vec []) :=
  ⟨c10_caller_arrays_unmodified (fun _ => (0:ℚ)) (fun _ => 0) []
      [Cell.mat [[1]], Cell.vec [4]] 0 (some 1) "all" 2 0 0 (by decide)
      (Cell.mat []),
   c10_caller_arrays_unmodified (fun _ => (0:ℚ)) (fun _ => 0) []
      [Cell.mat [[1]], Cell.vec [4]] 0 (some 1) "all" 2 0 1 (by decide)
      (Cell.vec [])⟩

end CODIModel
